import Mathlib

/-!
Verification of the `constellations` task tracker (src/main.rs) against its
natural-language specification.

The development shallowly embeds the program's core: the record codec
(`Task::to_file` and the nom parser `parse_task`), the store enumeration
(`get_tasks` over a `walkdir` traversal with `filter_entry` and
`min_depth(1)`), the due-date colour banding in `Task::print`, and the
due-date line handling of `new_task`.  Strings are modelled as `List Char`
(Rust `&str` is UTF-8 text iterated as chars by every operation the program
uses), machine integers as `Nat`/`Int` with explicit range checks mirroring
Rust's `from_str` overflow failures, and Rust panics (`Utc.ymd`'s internal
`unwrap`, `Vec` index out of bounds) as an explicit `panic` outcome distinct
from recoverable `Err` values.
-/

namespace Constellations

/-! ## Character classes and digit arithmetic -/

/-- Whitespace accepted by nom's `ws!` separator (`sp` eats `" \t\r\n"`). -/
def isSp (c : Char) : Bool :=
  c == ' ' || c == '\t' || c == '\r' || c == '\n'

/-- Numeric value of an ASCII digit character; models the accumulation done by
Rust's integer `from_str` on a digit. -/
def charVal (c : Char) : Nat := c.toNat - 48

/-- Value of a decimal digit string, most significant first; models Rust's
`from_str` accumulation over an all-digit slice. -/
def foldDigits (s : List Char) : Nat :=
  s.foldl (fun a c => 10 * a + charVal c) 0

/-- Decimal digit characters of `n` (fuel-driven so that it is structural and
kernel-reducible); models Rust's integer-to-decimal-text conversion used by
`to_string` and by the `Display` of chrono dates. -/
def natChars : Nat → Nat → List Char
  | 0, _ => []
  | f + 1, n =>
    if n < 10 then [Nat.digitChar n]
    else natChars f (n / 10) ++ [Nat.digitChar (n % 10)]

/-- Decimal rendering of a natural number (Rust `to_string` on unsigned
integers). -/
def natToChars (n : Nat) : List Char := natChars (n + 1) n

/-- Left-pad a digit string with `'0'` up to width `k` (chrono's `Pad::Zero`
numeric formatting). -/
def padZero (k : Nat) (l : List Char) : List Char :=
  List.replicate (k - l.length) '0' ++ l

/-! ## Rust integer parsing (`u8`/`u32`/`i32` `from_str`) -/

/-- Model of Rust `from_str` for unsigned integers with maximum value `max`:
an optional leading `'+'`, then a non-empty run of ASCII digits whose value
must fit (overflow is an error). -/
def parseUIntR (max : Nat) (s : List Char) : Option Nat :=
  let t := if s.head? = some '+' then s.tail else s
  if t ≠ [] ∧ t.all Char.isDigit ∧ foldDigits t ≤ max then some (foldDigits t)
  else none

/-- Model of Rust `from_str` for signed integers in `[lo, hi]`: an optional
leading `'-'` or `'+'`, then a non-empty run of ASCII digits; out-of-range
values are an error. -/
def parseIntR (lo hi : Int) (s : List Char) : Option Int :=
  let neg : Bool := s.head? = some '-'
  let t := if s.head? = some '-' ∨ s.head? = some '+' then s.tail else s
  if t ≠ [] ∧ t.all Char.isDigit then
    let v : Int := if neg then -(foldDigits t : Int) else (foldDigits t : Int)
    if lo ≤ v ∧ v ≤ hi then some v else none
  else none

/-- Rust `i32::from_str` (src/main.rs `year`, lines 240-242). -/
def yearOfStr (s : List Char) : Option Int :=
  parseIntR (-2147483648) 2147483647 s

/-- Rust `u32::from_str` (src/main.rs `month`/`day`, lines 244-250). -/
def u32OfStr (s : List Char) : Option Nat := parseUIntR 4294967295 s

/-- Rust `u8::from_str` (src/main.rs `parse_priority`, lines 232-234). -/
def parse_priority (s : List Char) : Option Nat := parseUIntR 255 s

/-- Rust `char::is_digit(10)` (src/main.rs `is_num`, lines 236-238). -/
def is_num (c : Char) : Bool := c.isDigit

/-! ## Calendar dates (chrono) -/

/-- Proleptic Gregorian leap-year rule, as used by chrono. -/
def isLeap (y : Int) : Bool :=
  y % 4 == 0 && (y % 100 != 0 || y % 400 == 0)

/-- Days in a month of the proleptic Gregorian calendar. -/
def daysInMonth (y : Int) (m : Nat) : Int :=
  if m = 2 then (if isLeap y then 29 else 28)
  else if m = 4 ∨ m = 6 ∨ m = 9 ∨ m = 11 then 30
  else 31

/-- Validity condition of `chrono::NaiveDate::from_ymd_opt` (year within
chrono's representable range, month 1-12, day within the month);
`TimeZone::ymd` unwraps this and panics when it fails. -/
def validYMD (y : Int) (m d : Nat) : Bool :=
  -262144 ≤ y && y ≤ 262143 && 1 ≤ m && m ≤ 12 && 1 ≤ d &&
    (d : Int) ≤ daysInMonth y m

/-! ## The Task entity -/

/-- The Rust `Task` struct (src/main.rs lines 144-150).  `due_date : Date<Utc>`
is represented by its calendar components `year`/`month`/`day`; two chrono
dates are equal exactly when these components are equal.  `priority` is a `u8`
and `year`/`month`/`day` are `i32`/`u32`/`u32`; the Rust-side range and date
validity facts appear as hypotheses of the theorems. -/
structure Task where
  title : String
  priority : Nat
  year : Int
  month : Nat
  day : Nat
  info : String
deriving DecidableEq, Repr

/-! ## Encoding (`Task::to_file`, src/main.rs lines 187-204) -/

/-- Replace every non-overlapping occurrence of `pat` (non-empty) by `rep`,
scanning left to right; fuel-driven structural version of Rust
`str::replace`.  With fuel at least the length of the input the fuel never
runs out, since every step consumes at least one character. -/
def replaceFuel (pat rep : List Char) : Nat → List Char → List Char
  | 0, s => s
  | _ + 1, [] => []
  | f + 1, c :: cs =>
    if pat.isPrefixOf (c :: cs) then
      rep ++ replaceFuel pat rep f (cs.drop (pat.length - 1))
    else c :: replaceFuel pat rep f cs

/-- Rust `str::replace` for a non-empty pattern. -/
def replaceL (pat rep s : List Char) : List Char :=
  replaceFuel pat rep s.length s

/-- Chrono's rendering of the year in `NaiveDate`'s `Display` (`%Y`,
`Pad::Zero`, width 4): years in `0..=9999` are zero-padded to four digits,
years outside that range carry an explicit sign and are zero-padded to at
least four digits after the sign. -/
def yearChars (y : Int) : List Char :=
  if 0 ≤ y ∧ y < 10000 then padZero 4 (natToChars y.toNat)
  else if y < 0 then '-' :: padZero 4 (natToChars (-y).toNat)
  else '+' :: padZero 4 (natToChars y.toNat)

/-- Two-digit zero-padded rendering (`%m`, `%d` with `Pad::Zero`, width 2). -/
def pad2 (n : Nat) : List Char :=
  if n < 10 then '0' :: natToChars n else natToChars n

/-- Chrono `Date<Utc>::to_string()`: the `NaiveDate` display `%Y-%m-%d`
followed by the `Utc` offset rendering `"UTC"`. -/
def dateDisplayChars (y : Int) (m d : Nat) : List Char :=
  yearChars y ++ '-' :: pad2 m ++ '-' :: pad2 d ++ "UTC".data

/-- `Task::to_file` (src/main.rs lines 187-204): builds the record text; the
due-date text is the chrono display with `"UTC"` removed and `'-'` replaced by
`'/'`.  The Rust function returns `Result<String, Error>` but has no failing
path, so the model returns the string directly. -/
def toFileL (t : Task) : List Char :=
  "title: \"".data ++ t.title.data ++ "\"\npriority: ".data
    ++ natToChars t.priority ++ "\ndue_date: ".data
    ++ replaceL "-".data "/".data
        (replaceL "UTC".data [] (dateDisplayChars t.year t.month t.day))
    ++ "\ninfo: \"".data ++ t.info.data ++ ['"']

/-- String-level wrapper of `Task::to_file`. -/
def toFile (t : Task) : String := String.mk (toFileL t)

/-! ## Decoding (`parse_task`, src/main.rs lines 207-230)

nom 4 combinators over `&str`, modelled over `List Char`.  `Incomplete` and
`Error` results are both observed only through `Err(_)` by `get_tasks`, so
both map to `none` here. -/

/-- The separator eaten by nom's `ws!` (zero or more of `" \t\r\n"`). -/
def spDrop (s : List Char) : List Char := s.dropWhile isSp

/-- nom `tag!`: match a literal prefix and drop it. -/
def tagP (lit s : List Char) : Option (List Char) :=
  if lit.isPrefixOf s then some (s.drop lit.length) else none

/-- nom `ws!(tag!(lit))`: skip whitespace, match the literal, skip whitespace
after it. -/
def wsTag (lit s : List Char) : Option (List Char) :=
  (tagP lit (spDrop s)).map spDrop

/-- nom `take_till!`: capture up to (not including) the first character
satisfying `p`; if no such character exists the streaming parser is
incomplete, which the caller observes as an error. -/
def takeTillP (p : Char → Bool) (s : List Char) :
    Option (List Char × List Char) :=
  if s.any p then some (s.takeWhile (fun c => !p c), s.dropWhile (fun c => !p c))
  else none

/-- nom `take_while!`: capture the maximal prefix satisfying `p`; if the whole
remaining input satisfies `p` the streaming parser is incomplete, observed as
an error. -/
def takeWhileP (p : Char → Bool) (s : List Char) :
    Option (List Char × List Char) :=
  if s.any (fun c => !p c) then some (s.takeWhile p, s.dropWhile p)
  else none

/-- Outcome of running `parse_task` as `get_tasks` observes it: a parsed task
plus unconsumed input, a recoverable nom error, or a Rust panic (raised by the
`Utc.ymd(...)` construction on an invalid calendar date). -/
inductive PR where
  | ok (rest : String) (t : Task)
  | err
  | panic
deriving DecidableEq, Repr

/-- Steps 1-3 of the `do_parse!` chain: `ws!(tag!("title: \""))`, the
`take_till!` capture of the title, `ws!(tag!("\""))`. -/
def lexTitle (s : List Char) : Option (List Char × List Char) :=
  match wsTag "title: \"".data s with
  | none => none
  | some s =>
    match takeTillP (fun c => c == '"') s with
    | none => none
    | some (title, s) =>
      match wsTag "\"".data s with
      | none => none
      | some s => some (title, s)

/-- Steps 4-5: `ws!(tag!("priority: "))` and
`map_res!(take_while!(is_num), parse_priority)`. -/
def lexPriority (s : List Char) : Option (Nat × List Char) :=
  match wsTag "priority: ".data s with
  | none => none
  | some s =>
    match takeWhileP is_num s with
    | none => none
    | some (pc, s) =>
      match parse_priority pc with
      | none => none
      | some p => some (p, s)

/-- Steps 6-11: `ws!(tag!("due_date: "))`, then the year, `tag!("/")`, the
month, `tag!("/")`, the day, each a `map_res!(take_while!(is_num), _)`. -/
def lexDate (s : List Char) : Option (Int × Nat × Nat × List Char) :=
  match wsTag "due_date: ".data s with
  | none => none
  | some s =>
    match takeWhileP is_num s with
    | none => none
    | some (yc, s) =>
      match yearOfStr yc with
      | none => none
      | some y =>
        match tagP "/".data s with
        | none => none
        | some s =>
          match takeWhileP is_num s with
          | none => none
          | some (mc, s) =>
            match u32OfStr mc with
            | none => none
            | some m =>
              match tagP "/".data s with
              | none => none
              | some s =>
                match takeWhileP is_num s with
                | none => none
                | some (dc, s) =>
                  match u32OfStr dc with
                  | none => none
                  | some d => some (y, m, d, s)

/-- Steps 12-14: `ws!(tag!("info: \""))`, the `take_till!` capture of the
info text, the final bare `tag!("\"")`. -/
def lexInfo (s : List Char) : Option (List Char × List Char) :=
  match wsTag "info: \"".data s with
  | none => none
  | some s =>
    match takeTillP (fun c => c == '"') s with
    | none => none
    | some (info, s) =>
      match tagP "\"".data s with
      | none => none
      | some s => some (info, s)

/-- The lexical phase of `parse_task`: the `do_parse!` chain of src/main.rs
lines 207-230, before the `Utc.ymd` construction. -/
def lexTask (s : List Char) :
    Option (List Char × Nat × Int × Nat × Nat × List Char × List Char) :=
  match lexTitle s with
  | none => none
  | some (title, s) =>
    match lexPriority s with
    | none => none
    | some (p, s) =>
      match lexDate s with
      | none => none
      | some (y, m, d, s) =>
        match lexInfo s with
        | none => none
        | some (info, s) => some (title, p, y, m, d, info, s)

/-- `parse_task` over a character list: on lexical success the task is built
with `Utc.ymd(year, month, day)`, which panics when the components do not form
a valid calendar date. -/
def parseTaskL (s : List Char) : PR :=
  match lexTask s with
  | none => .err
  | some (title, p, y, m, d, info, rest) =>
    if validYMD y m d then
      .ok (String.mk rest) ⟨String.mk title, p, y, m, d, String.mk info⟩
    else .panic

/-- `parse_task` on a string. -/
def parse_task (s : String) : PR := parseTaskL s.data

/-! ## Store enumeration (`get_tasks`, src/main.rs lines 89-115) -/

/-- A filesystem subtree beneath the store directory: regular files carry
their base name and text content, directories their base name and entries. -/
inductive FSEntry where
  | file (name content : String)
  | dir (name : String) (children : List FSEntry)
deriving Repr

/-- The `filter_entry` predicate of `get_tasks`:
`e.file_name().to_str().map(|d| d.ends_with("cstf")).unwrap_or(false)`. -/
def cstfName (n : String) : Bool := "cstf".data.isSuffixOf n.data

/-- Contents of the regular files yielded by the `WalkDir` iteration of
`get_tasks`, in traversal order: `min_depth(1)` exempts the store root from
the filter, every deeper entry must pass `cstfName`, and a directory that
fails the filter is pruned together with its whole subtree
(`filter_entry` skips descent); directory entries that pass are yielded but
skipped by the `is_dir` check. -/
def walkFiles : List FSEntry → List String
  | [] => []
  | .file n c :: rest =>
    if cstfName n then c :: walkFiles rest else walkFiles rest
  | .dir n ch :: rest =>
    if cstfName n then walkFiles ch ++ walkFiles rest else walkFiles rest

/-- Result of `get_tasks`: the decoded tasks in traversal order, the
`bail!("Unable to open tasks")` failure, or a propagated Rust panic. -/
inductive GetRes where
  | ok (ts : List Task)
  | err
  | panic
deriving DecidableEq, Repr

/-- The per-file loop of `get_tasks`: parse each file in order, push
successes, abort with the aggregate error on the first parse error, and
propagate a panic raised by date construction. -/
def processFiles : List String → GetRes
  | [] => .ok []
  | c :: cs =>
    match parseTaskL c.data with
    | .ok _ t =>
      match processFiles cs with
      | .ok ts => .ok (t :: ts)
      | r => r
    | .err => .err
    | .panic => .panic

/-- `get_tasks` over a modelled store directory. -/
def get_tasks (store : List FSEntry) : GetRes :=
  processFiles (walkFiles store)

/-! ## Due-date colour banding (`Task::print`, src/main.rs lines 169-178) -/

/-- Terminal colours used by `Task::print`. -/
inductive TermColor where
  | red
  | yellow
  | green
  | cyan
deriving DecidableEq, Repr

/-- Colour of the due-date line, selected from
`(self.due_date - Utc::today()).num_days()`. -/
def dueDateColor (daysUntil : Int) : TermColor :=
  if daysUntil ≤ 1 then .red
  else if daysUntil ≤ 7 then .yellow
  else if daysUntil ≤ 14 then .green
  else .cyan

/-- Colour of the priority line (src/main.rs lines 159-164). -/
def priorityColor (p : Nat) : TermColor :=
  if p ≤ 2 then .cyan
  else if p ≤ 6 then .green
  else if p ≤ 9 then .yellow
  else .red

/-! ## Interactive due-date input (`new_task`, src/main.rs lines 45-55) -/

/-- Rust `str::split('-')`: the separator-delimited pieces, empty pieces
included. -/
def splitDash : List Char → List (List Char)
  | [] => [[]]
  | c :: cs =>
    if c == '-' then [] :: splitDash cs
    else
      match splitDash cs with
      | [] => [[c]]
      | h :: t => (c :: h) :: t

/-- Outcome of processing the due-date line in `new_task`. -/
inductive NTRes where
  | ok (y : Int) (m d : Nat)
  | err
  | panic
deriving DecidableEq, Repr

/-- The due-date handling of `new_task` (src/main.rs lines 45-55): the line
is split on `'-'`; the Rust code then evaluates `date_string[0].parse?`,
`date_string[1].parse?`, `date_string[2].parse?` in order — each `Vec` index
panics when out of bounds, each failed parse returns the error — and finally
`Utc.ymd(..)`, which panics on an invalid calendar date. -/
def newTaskDate (line : String) : NTRes :=
  let parts := splitDash line.data
  match parts[0]? with
  | none => .panic
  | some p0 =>
    match parseIntR (-2147483648) 2147483647 p0 with
    | none => .err
    | some y =>
      match parts[1]? with
      | none => .panic
      | some p1 =>
        match u32OfStr p1 with
        | none => .err
        | some m =>
          match parts[2]? with
          | none => .panic
          | some p2 =>
            match u32OfStr p2 with
            | none => .err
            | some d => if validYMD y m d then .ok y m d else .panic

/-! ## Character-class lemmas -/

theorem isDigit_toNat {c : Char} (h : c.isDigit = true) :
    48 ≤ c.toNat ∧ c.toNat ≤ 57 := by
  simpa [Char.isDigit] using h

theorem digit_not_sp {c : Char} (h : c.isDigit = true) : isSp c = false := by
  obtain ⟨h1, h2⟩ := isDigit_toNat h
  simp only [isSp, Bool.or_eq_false_iff, beq_eq_false_iff_ne, ne_eq]
  refine ⟨⟨⟨?_, ?_⟩, ?_⟩, ?_⟩ <;> rintro rfl <;> simp_all

theorem digit_ne {c : Char} (h : c.isDigit = true) :
    c ≠ '"' ∧ c ≠ '/' ∧ c ≠ 'U' ∧ c ≠ '-' ∧ c ≠ '+' := by
  obtain ⟨h1, h2⟩ := isDigit_toNat h
  refine ⟨?_, ?_, ?_, ?_, ?_⟩ <;> rintro rfl <;> simp_all

theorem digitChar_isDigit {k : Nat} (h : k < 10) :
    (Nat.digitChar k).isDigit = true := by
  interval_cases k <;> decide

theorem charVal_digitChar {k : Nat} (h : k < 10) :
    charVal (Nat.digitChar k) = k := by
  interval_cases k <;> decide

/-! ## Decimal rendering lemmas -/

theorem natChars_digits :
    ∀ f n, n < f → ∀ c ∈ natChars f n, c.isDigit = true := by
  intro f
  induction f with
  | zero => omega
  | succ f ih =>
    intro n hn c hc
    rw [natChars] at hc
    by_cases h10 : n < 10
    · simp only [if_pos h10, List.mem_singleton] at hc
      subst hc
      exact digitChar_isDigit h10
    · simp only [if_neg h10, List.mem_append, List.mem_singleton] at hc
      rcases hc with hc | hc
      · exact ih (n / 10) (by omega) c hc
      · subst hc
        exact digitChar_isDigit (Nat.mod_lt _ (by omega))

theorem natChars_ne_nil {f n : Nat} (h : n < f) : natChars f n ≠ [] := by
  cases f with
  | zero => omega
  | succ f =>
    rw [natChars]
    split
    · simp
    · simp

theorem natChars_foldl :
    ∀ f n a, n < f →
      List.foldl (fun a c => 10 * a + charVal c) a (natChars f n) =
        a * 10 ^ (natChars f n).length + n := by
  intro f
  induction f with
  | zero => omega
  | succ f ih =>
    intro n a hn
    rw [natChars]
    by_cases h10 : n < 10
    · simp only [if_pos h10, List.foldl_cons, List.foldl_nil,
        List.length_singleton, charVal_digitChar h10, pow_one]
      omega
    · have hdiv : n / 10 < f := by omega
      simp only [if_neg h10, List.foldl_append, List.length_append,
        List.foldl_cons, List.foldl_nil, List.length_singleton]
      rw [ih (n / 10) a hdiv]
      rw [charVal_digitChar (Nat.mod_lt _ (by omega))]
      rw [pow_succ]
      have : 10 * (n / 10) + n % 10 = n := Nat.div_add_mod n 10
      ring_nf
      omega

theorem natChars_length_le :
    ∀ f n k, n < f → n < 10 ^ k → 1 ≤ k → (natChars f n).length ≤ k := by
  intro f
  induction f with
  | zero => omega
  | succ f ih =>
    intro n k hn hk h1
    rw [natChars]
    by_cases h10 : n < 10
    · simp only [if_pos h10, List.length_singleton]
      exact h1
    · simp only [if_neg h10, List.length_append, List.length_singleton]
      have hk2 : 2 ≤ k := by
        by_contra hcon
        have : k = 1 := by omega
        subst this
        simp at hk
        omega
      have : n / 10 < 10 ^ (k - 1) := by
        have : 10 ^ k = 10 ^ (k - 1) * 10 := by
          rw [← pow_succ]
          congr 1
          omega
        omega
      have := ih (n / 10) (k - 1) (by omega) this (by omega)
      omega

theorem foldDigits_natToChars (n : Nat) : foldDigits (natToChars n) = n := by
  have := natChars_foldl (n + 1) n 0 (by omega)
  simpa [foldDigits, natToChars] using this

theorem natToChars_digits {n : Nat} : ∀ c ∈ natToChars n, c.isDigit = true :=
  natChars_digits (n + 1) n (by omega)

theorem natToChars_ne_nil {n : Nat} : natToChars n ≠ [] :=
  natChars_ne_nil (by omega)

theorem natToChars_length_le {n k : Nat} (hk : n < 10 ^ k) (h1 : 1 ≤ k) :
    (natToChars n).length ≤ k :=
  natChars_length_le (n + 1) n k (by omega) hk h1

theorem foldDigits_padZero (k : Nat) (l : List Char) :
    foldDigits (padZero k l) = foldDigits l := by
  unfold padZero foldDigits
  rw [List.foldl_append]
  congr 1
  induction (k - l.length) with
  | zero => rfl
  | succ j ih => simpa [List.replicate_succ, charVal] using ih

theorem padZero_digits {k : Nat} {l : List Char}
    (h : ∀ c ∈ l, c.isDigit = true) :
    ∀ c ∈ padZero k l, c.isDigit = true := by
  intro c hc
  rcases List.mem_append.mp hc with hc | hc
  · have := List.eq_of_mem_replicate hc
    subst this
    decide
  · exact h c hc

theorem padZero_length {k : Nat} {l : List Char} (h : l.length ≤ k) :
    (padZero k l).length = k := by
  simp [padZero]
  omega

theorem padZero_ne_nil {k : Nat} {l : List Char} (hl : l ≠ []) :
    padZero k l ≠ [] := by
  simp [padZero, hl]

theorem pad2_digits {n : Nat} : ∀ c ∈ pad2 n, c.isDigit = true := by
  intro c hc
  unfold pad2 at hc
  split at hc
  · rcases List.mem_cons.mp hc with rfl | hc
    · decide
    · exact natToChars_digits c hc
  · exact natToChars_digits c hc

theorem pad2_ne_nil {n : Nat} : pad2 n ≠ [] := by
  unfold pad2
  split
  · simp
  · exact natToChars_ne_nil

theorem foldDigits_pad2 (n : Nat) : foldDigits (pad2 n) = n := by
  unfold pad2
  split
  · show List.foldl _ _ ('0' :: natToChars n) = n
    have := natChars_foldl (n + 1) n (10 * 0 + charVal '0') (by omega)
    simpa [foldDigits, natToChars, charVal] using this
  · exact foldDigits_natToChars n

theorem pad2_length {n : Nat} (h : n < 100) : (pad2 n).length = 2 := by
  unfold pad2
  split
  · next h10 =>
    have h1 : (natToChars n).length ≤ 1 := natToChars_length_le (by simpa) (by omega)
    have h2 : natToChars n ≠ [] := natToChars_ne_nil
    have : (natToChars n).length = 1 := by
      cases hl : natToChars n with
      | nil => exact absurd hl h2
      | cons a l =>
        rw [hl] at h1
        simp at h1 ⊢
        exact h1
    simp [this]
  · next h10 =>
    have h1 : (natToChars n).length ≤ 2 := natToChars_length_le (by simpa) (by omega)
    have h2 : ¬ (natToChars n).length ≤ 1 := by
      intro hcon
      cases hl : natToChars n with
      | nil => exact natToChars_ne_nil hl
      | cons a l =>
        rw [hl] at hcon
        simp at hcon
        have := foldDigits_natToChars n
        rw [hl, hcon] at this
        have hd : a.isDigit = true := by
          have := @natToChars_digits n a
          rw [hl] at this
          exact this (by simp)
        obtain ⟨hb1, hb2⟩ := isDigit_toNat hd
        simp [foldDigits, charVal] at this
        omega
    omega

/-! ## Rust integer-parsing lemmas -/

theorem parseUIntR_digitRun {max : Nat} {l : List Char} (h0 : l ≠ [])
    (h1 : ∀ c ∈ l, c.isDigit = true) (h2 : foldDigits l ≤ max) :
    parseUIntR max l = some (foldDigits l) := by
  unfold parseUIntR
  have hhead : l.head? ≠ some '+' := by
    cases l with
    | nil => simp
    | cons a l =>
      simp only [List.head?_cons, ne_eq, Option.some.injEq]
      intro hcon
      subst hcon
      have := h1 '+' (by simp)
      simp at this
  simp only [if_neg hhead, reduceIte]
  rw [if_pos]
  refine ⟨h0, ?_, h2⟩
  rw [List.all_eq_true]
  intro c hc
  exact h1 c hc

theorem parseIntR_digitRun {lo hi : Int} {l : List Char} (h0 : l ≠ [])
    (h1 : ∀ c ∈ l, c.isDigit = true) (h2 : lo ≤ (foldDigits l : Int))
    (h3 : (foldDigits l : Int) ≤ hi) :
    parseIntR lo hi l = some ((foldDigits l : Int)) := by
  have hminus : l.head? ≠ some '-' := by
    cases l with
    | nil => simp
    | cons a r =>
      simp only [List.head?_cons, ne_eq, Option.some.injEq]
      intro hcon
      subst hcon
      have := (digit_ne (h1 '-' (by simp))).2.2.2.1
      exact this rfl
  have hplus : l.head? ≠ some '+' := by
    cases l with
    | nil => simp
    | cons a r =>
      simp only [List.head?_cons, ne_eq, Option.some.injEq]
      intro hcon
      subst hcon
      have := (digit_ne (h1 '+' (by simp))).2.2.2.2
      exact this rfl
  have hcond : ¬(l.head? = some '-' ∨ l.head? = some '+') := by
    rintro (hx | hx)
    · exact hminus hx
    · exact hplus hx
  simp only [parseIntR]
  rw [if_neg hcond]
  rw [if_pos ⟨h0, by rw [List.all_eq_true]; exact h1⟩]
  rw [if_neg (show ¬(decide (l.head? = some '-') = true) by simpa using hminus)]
  rw [if_pos ⟨h2, h3⟩]

theorem parseIntR_nonneg {lo hi v : Int} {l : List Char}
    (h1 : ∀ c ∈ l, c.isDigit = true) (h : parseIntR lo hi l = some v) :
    0 ≤ v := by
  cases l with
  | nil => simp [parseIntR] at h
  | cons a r =>
    have ha := h1 a (by simp)
    obtain ⟨_, _, _, hm, hp⟩ := digit_ne ha
    simp only [parseIntR, List.head?_cons, Option.some.injEq] at h
    have ht : (if a = '-' ∨ a = '+' then (a :: r).tail else a :: r) = a :: r := by
      rw [if_neg]
      rintro (hx | hx)
      · exact hm hx
      · exact hp hx
    rw [ht] at h
    have hd : (decide (a = '-')) = false := decide_eq_false hm
    rw [hd] at h
    simp only [Bool.false_eq_true, if_false] at h
    split at h
    · split at h
      · simp only [Option.some.injEq] at h
        subst h
        positivity
      · exact absurd h (by simp)
    · exact absurd h (by simp)

/-! ## Scanning lemmas for the nom combinators -/

theorem spDrop_eq_self {s : List Char}
    (h : ∀ c, s.head? = some c → isSp c = false) : spDrop s = s := by
  cases s with
  | nil => rfl
  | cons a r =>
    have := h a (by simp)
    simp [spDrop, List.dropWhile_cons, this]

theorem spDrop_cons_sp {c : Char} {s : List Char} (h : isSp c = true) :
    spDrop (c :: s) = spDrop s := by
  simp [spDrop, List.dropWhile_cons, h]

theorem tagP_append (lit rest : List Char) :
    tagP lit (lit ++ rest) = some rest := by
  unfold tagP
  rw [if_pos]
  · simp
  · rw [List.isPrefixOf_iff_prefix]
    exact List.prefix_append lit rest

theorem wsTag_append {lit rest : List Char} (hne : lit ≠ [])
    (hlit : ∀ c, lit.head? = some c → isSp c = false) :
    wsTag lit (lit ++ rest) = some (spDrop rest) := by
  unfold wsTag
  have hs : spDrop (lit ++ rest) = lit ++ rest := by
    apply spDrop_eq_self
    intro c hc
    cases lit with
    | nil => exact absurd rfl hne
    | cons a l =>
      simp at hc
      exact hlit c (by simp [hc])
  rw [hs, tagP_append]
  rfl

theorem takeTillP_append {p : Char → Bool} {xs : List Char} (y : Char)
    (ys : List Char) (hxs : ∀ c ∈ xs, p c = false) (hy : p y = true) :
    takeTillP p (xs ++ y :: ys) = some (xs, y :: ys) := by
  unfold takeTillP
  rw [if_pos]
  · congr 1
    have h1 : ∀ l, (∀ c ∈ l, p c = false) →
        List.takeWhile (fun c => !p c) (l ++ y :: ys) = l ∧
        List.dropWhile (fun c => !p c) (l ++ y :: ys) = y :: ys := by
      intro l
      induction l with
      | nil =>
        intro _
        simp [List.takeWhile_cons, List.dropWhile_cons, hy]
      | cons a t ih =>
        intro hmem
        have ha : p a = false := hmem a (by simp)
        have := ih (fun c hc => hmem c (by simp [hc]))
        simp [List.takeWhile_cons, List.dropWhile_cons, ha, this.1, this.2]
    have := h1 xs hxs
    rw [Prod.ext_iff]
    exact ⟨this.1, this.2⟩
  · rw [List.any_eq_true]
    exact ⟨y, by simp, hy⟩

theorem takeWhileP_append {p : Char → Bool} {xs : List Char} (y : Char)
    (ys : List Char) (hxs : ∀ c ∈ xs, p c = true) (hy : p y = false) :
    takeWhileP p (xs ++ y :: ys) = some (xs, y :: ys) := by
  unfold takeWhileP
  rw [if_pos]
  · congr 1
    have h1 : ∀ l, (∀ c ∈ l, p c = true) →
        List.takeWhile p (l ++ y :: ys) = l ∧
        List.dropWhile p (l ++ y :: ys) = y :: ys := by
      intro l
      induction l with
      | nil =>
        intro _
        simp [List.takeWhile_cons, List.dropWhile_cons, hy]
      | cons a t ih =>
        intro hmem
        have ha : p a = true := hmem a (by simp)
        have := ih (fun c hc => hmem c (by simp [hc]))
        simp [List.takeWhile_cons, List.dropWhile_cons, ha, this.1, this.2]
    have := h1 xs hxs
    rw [Prod.ext_iff]
    exact ⟨this.1, this.2⟩
  · rw [List.any_eq_true]
    exact ⟨y, by simp, by simp [hy]⟩

/-! ## Replace lemmas -/

theorem replaceFuel_nil (pat rep : List Char) (f : Nat) :
    replaceFuel pat rep f [] = [] := by
  cases f <;> rfl

theorem replaceFuel_skip {p0 : Char} {pt rep : List Char} :
    ∀ (xs : List Char) (f : Nat) (ys : List Char), (∀ c ∈ xs, c ≠ p0) →
      replaceFuel (p0 :: pt) rep f (xs ++ ys) =
        xs ++ replaceFuel (p0 :: pt) rep (f - xs.length) ys := by
  intro xs
  induction xs with
  | nil => simp
  | cons a t ih =>
    intro f ys hne
    cases f with
    | zero => simp [replaceFuel]
    | succ f =>
      have ha : a ≠ p0 := hne a (by simp)
      have hpre : (p0 :: pt).isPrefixOf (a :: (t ++ ys)) = false := by
        rw [Bool.eq_false_iff]
        intro hcon
        rw [List.isPrefixOf_iff_prefix] at hcon
        have := List.cons_prefix_cons.mp hcon
        exact ha this.1.symm
      show replaceFuel (p0 :: pt) rep (f + 1) (a :: (t ++ ys)) = _
      rw [replaceFuel]
      rw [hpre]
      simp only [Bool.false_eq_true, if_false]
      rw [ih f ys (fun c hc => hne c (by simp [hc]))]
      simp [Nat.succ_sub_succ]

theorem replaceFuel_clean {p0 : Char} {pt rep : List Char} :
    ∀ (f : Nat) (xs : List Char), (∀ c ∈ xs, c ≠ p0) →
      replaceFuel (p0 :: pt) rep f xs = xs := by
  intro f
  induction f with
  | zero => intro xs _; rfl
  | succ f ih =>
    intro xs hne
    cases xs with
    | nil => rfl
    | cons a t =>
      have ha : a ≠ p0 := hne a (by simp)
      have hpre : (p0 :: pt).isPrefixOf (a :: t) = false := by
        rw [Bool.eq_false_iff]
        intro hcon
        rw [List.isPrefixOf_iff_prefix] at hcon
        exact ha (List.cons_prefix_cons.mp hcon).1.symm
      rw [replaceFuel, hpre]
      simp only [Bool.false_eq_true, if_false]
      rw [ih t (fun c hc => hne c (by simp [hc]))]

theorem replaceFuel_hit1 {p0 : Char} {rep : List Char} (f : Nat)
    (ys : List Char) (hf : 1 ≤ f) :
    replaceFuel [p0] rep f (p0 :: ys) = rep ++ replaceFuel [p0] rep (f - 1) ys := by
  cases f with
  | zero => omega
  | succ f =>
    rw [replaceFuel]
    have hpre : [p0].isPrefixOf (p0 :: ys) = true := by
      rw [List.isPrefixOf_iff_prefix]
      exact List.cons_prefix_cons.mpr ⟨rfl, List.nil_prefix⟩
    rw [hpre]
    simp

theorem replaceFuel_self {p0 : Char} {pt rep : List Char} (f : Nat)
    (hf : 1 ≤ f) : replaceFuel (p0 :: pt) rep f (p0 :: pt) = rep := by
  cases f with
  | zero => omega
  | succ f =>
    rw [replaceFuel]
    have hpre : (p0 :: pt).isPrefixOf (p0 :: pt) = true := by
      rw [List.isPrefixOf_iff_prefix]
    rw [hpre]
    simp only [if_true, List.length_cons, Nat.add_sub_cancel, List.drop_length]
    rw [replaceFuel_nil]
    simp

theorem utcStrip {B : List Char} (hB : ∀ c ∈ B, c ≠ 'U') :
    replaceL "UTC".data [] (B ++ "UTC".data) = B := by
  have hpat : "UTC".data = 'U' :: ['T', 'C'] := rfl
  unfold replaceL
  rw [hpat]
  rw [replaceFuel_skip B _ _ hB]
  rw [replaceFuel_self _ (by simp [List.length_append])]
  simp

theorem dashJoin {Y M D : List Char}
    (hY : ∀ c ∈ Y, c.isDigit = true) (hM : ∀ c ∈ M, c.isDigit = true)
    (hD : ∀ c ∈ D, c.isDigit = true) :
    replaceL "-".data "/".data (Y ++ '-' :: (M ++ '-' :: D)) =
      Y ++ '/' :: (M ++ '/' :: D) := by
  have hpat : "-".data = '-' :: ([] : List Char) := rfl
  have hrep : "/".data = ['/'] := rfl
  have hYne : ∀ c ∈ Y, c ≠ '-' := fun c hc => (digit_ne (hY c hc)).2.2.2.1
  have hMne : ∀ c ∈ M, c ≠ '-' := fun c hc => (digit_ne (hM c hc)).2.2.2.1
  have hDne : ∀ c ∈ D, c ≠ '-' := fun c hc => (digit_ne (hD c hc)).2.2.2.1
  unfold replaceL
  rw [hpat, hrep]
  rw [replaceFuel_skip Y _ _ hYne]
  rw [replaceFuel_hit1 _ _ (by simp [List.length_append])]
  rw [replaceFuel_skip M _ _ hMne]
  rw [replaceFuel_hit1 _ _ (by simp [List.length_append])]
  rw [replaceFuel_clean _ D hDne]
  simp

theorem yearChars_small {y : Int} (hy0 : 0 ≤ y) (hy : y < 10000) :
    yearChars y = padZero 4 (natToChars y.toNat) := by
  unfold yearChars
  rw [if_pos ⟨hy0, hy⟩]

/-- The rendered due-date text inside `Task::to_file`, simplified: for years
in `0..=9999` the chrono display with `"UTC"` removed and dashes replaced is
the zero-padded `YYYY/MM/DD` form. -/
theorem dateReplace {y : Int} {m d : Nat} (hy0 : 0 ≤ y) (hy : y < 10000) :
    replaceL "-".data "/".data
        (replaceL "UTC".data [] (dateDisplayChars y m d)) =
      padZero 4 (natToChars y.toNat) ++ '/' :: (pad2 m ++ '/' :: pad2 d) := by
  have hY : ∀ c ∈ padZero 4 (natToChars y.toNat), c.isDigit = true :=
    padZero_digits natToChars_digits
  have hB : ∀ c ∈ padZero 4 (natToChars y.toNat) ++ '-' :: (pad2 m ++ '-' :: pad2 d),
      c ≠ 'U' := by
    intro c hc
    rcases List.mem_append.mp hc with hc | hc
    · exact (digit_ne (hY c hc)).2.2.1
    · rcases List.mem_cons.mp hc with rfl | hc
      · decide
      · rcases List.mem_append.mp hc with hc | hc
        · exact (digit_ne (pad2_digits c hc)).2.2.1
        · rcases List.mem_cons.mp hc with rfl | hc
          · decide
          · exact (digit_ne (pad2_digits c hc)).2.2.1
  have hshape : dateDisplayChars y m d =
      (padZero 4 (natToChars y.toNat) ++ '-' :: (pad2 m ++ '-' :: pad2 d))
        ++ "UTC".data := by
    unfold dateDisplayChars
    rw [yearChars_small hy0 hy]
    simp [List.append_assoc]
  rw [hshape, utcStrip hB, dashJoin hY pad2_digits pad2_digits]

/-! ## Stage lemmas for the four lexical phases -/

theorem headNotSp {l : List Char} {a : Char} (h : l.head? = some a)
    (ha : isSp a = false) : ∀ c, l.head? = some c → isSp c = false := by
  intro c hc
  rw [h] at hc
  cases hc
  exact ha

theorem spDrop_append {xs : List Char} {y : Char} {ys : List Char}
    (hx : ∀ c, xs.head? = some c → isSp c = false) (hy : isSp y = false) :
    spDrop (xs ++ y :: ys) = xs ++ y :: ys := by
  apply spDrop_eq_self
  intro c hc
  cases xs with
  | nil =>
    simp at hc
    subst hc
    exact hy
  | cons a t =>
    simp at hc
    subst hc
    exact hx _ rfl

theorem spDrop_append_ne {xs : List Char} (ys : List Char) (hne : xs ≠ [])
    (hx : ∀ c, xs.head? = some c → isSp c = false) :
    spDrop (xs ++ ys) = xs ++ ys := by
  apply spDrop_eq_self
  intro c hc
  cases xs with
  | nil => exact absurd rfl hne
  | cons a t =>
    simp at hc
    subst hc
    exact hx _ rfl

theorem wsTag_cons_sp {lit : List Char} {c : Char} {s : List Char}
    (h : isSp c = true) : wsTag lit (c :: s) = wsTag lit s := by
  unfold wsTag
  rw [spDrop_cons_sp h]

theorem digitRun_head {l : List Char} (h : ∀ c ∈ l, c.isDigit = true) :
    ∀ c, l.head? = some c → isSp c = false := by
  intro c hc
  cases l with
  | nil => simp at hc
  | cons a t =>
    simp at hc
    subst hc
    exact digit_not_sp (h _ (by simp))

theorem lexTitle_spec {title rest : List Char}
    (hq : ∀ c ∈ title, (c == '"') = false)
    (hh : ∀ c, title.head? = some c → isSp c = false) :
    lexTitle ("title: \"".data ++ (title ++ '"' :: rest)) =
      some (title, spDrop rest) := by
  have h1 : wsTag "title: \"".data ("title: \"".data ++ (title ++ '"' :: rest))
      = some (spDrop (title ++ '"' :: rest)) :=
    wsTag_append (by decide) (headNotSp rfl (by decide))
  have h2 : spDrop (title ++ '"' :: rest) = title ++ '"' :: rest :=
    spDrop_append hh (by decide)
  have h3 : takeTillP (fun c => c == '"') (title ++ '"' :: rest) =
      some (title, '"' :: rest) := takeTillP_append '"' rest hq (by decide)
  have h4 : wsTag "\"".data ('"' :: rest) = some (spDrop rest) := by
    have e : ('"' :: rest) = "\"".data ++ rest := rfl
    rw [e]
    exact wsTag_append (by decide) (headNotSp rfl (by decide))
  simp only [lexTitle, h1, h2, h3, h4]

theorem lexPriority_spec {pc rest : List Char} {c0 : Char} (hpc : pc ≠ [])
    (hdig : ∀ c ∈ pc, c.isDigit = true) (hle : foldDigits pc ≤ 255)
    (hc0 : is_num c0 = false) :
    lexPriority ("priority: ".data ++ (pc ++ c0 :: rest)) =
      some (foldDigits pc, c0 :: rest) := by
  have h1 : wsTag "priority: ".data ("priority: ".data ++ (pc ++ c0 :: rest))
      = some (spDrop (pc ++ c0 :: rest)) :=
    wsTag_append (by decide) (headNotSp rfl (by decide))
  have h2 : spDrop (pc ++ c0 :: rest) = pc ++ c0 :: rest :=
    spDrop_append_ne _ hpc (digitRun_head hdig)
  have h3 : takeWhileP is_num (pc ++ c0 :: rest) = some (pc, c0 :: rest) :=
    takeWhileP_append c0 rest (fun c hc => hdig c hc) hc0
  have h4 : parse_priority pc = some (foldDigits pc) :=
    parseUIntR_digitRun hpc hdig hle
  simp only [lexPriority, h1, h2, h3, h4]

theorem lexDate_spec {yc mc dc rest : List Char} {c0 : Char}
    (hyc : yc ≠ []) (hycd : ∀ c ∈ yc, c.isDigit = true)
    (hyle : (foldDigits yc : Int) ≤ 2147483647)
    (hmc : mc ≠ []) (hmcd : ∀ c ∈ mc, c.isDigit = true)
    (hmle : foldDigits mc ≤ 4294967295)
    (hdc : dc ≠ []) (hdcd : ∀ c ∈ dc, c.isDigit = true)
    (hdle : foldDigits dc ≤ 4294967295)
    (hc0 : is_num c0 = false) :
    lexDate ("due_date: ".data ++ (yc ++ '/' :: (mc ++ '/' :: (dc ++ c0 :: rest)))) =
      some ((foldDigits yc : Int), foldDigits mc, foldDigits dc, c0 :: rest) := by
  have h1 : wsTag "due_date: ".data
      ("due_date: ".data ++ (yc ++ '/' :: (mc ++ '/' :: (dc ++ c0 :: rest))))
      = some (spDrop (yc ++ '/' :: (mc ++ '/' :: (dc ++ c0 :: rest)))) :=
    wsTag_append (by decide) (headNotSp rfl (by decide))
  have h2 : spDrop (yc ++ '/' :: (mc ++ '/' :: (dc ++ c0 :: rest)))
      = yc ++ '/' :: (mc ++ '/' :: (dc ++ c0 :: rest)) :=
    spDrop_append_ne _ hyc (digitRun_head hycd)
  have h3 : takeWhileP is_num (yc ++ '/' :: (mc ++ '/' :: (dc ++ c0 :: rest)))
      = some (yc, '/' :: (mc ++ '/' :: (dc ++ c0 :: rest))) :=
    takeWhileP_append _ _ (fun c hc => hycd c hc) (by decide)
  have h4 : yearOfStr yc = some ((foldDigits yc : Int)) :=
    parseIntR_digitRun hyc hycd (le_trans (by norm_num) (Int.ofNat_nonneg _)) hyle
  have h5 : tagP "/".data ('/' :: (mc ++ '/' :: (dc ++ c0 :: rest)))
      = some (mc ++ '/' :: (dc ++ c0 :: rest)) := by
    have e : ('/' :: (mc ++ '/' :: (dc ++ c0 :: rest)))
        = "/".data ++ (mc ++ '/' :: (dc ++ c0 :: rest)) := rfl
    rw [e]
    exact tagP_append _ _
  have h6 : takeWhileP is_num (mc ++ '/' :: (dc ++ c0 :: rest))
      = some (mc, '/' :: (dc ++ c0 :: rest)) :=
    takeWhileP_append _ _ (fun c hc => hmcd c hc) (by decide)
  have h7 : u32OfStr mc = some (foldDigits mc) :=
    parseUIntR_digitRun hmc hmcd hmle
  have h8 : tagP "/".data ('/' :: (dc ++ c0 :: rest))
      = some (dc ++ c0 :: rest) := by
    have e : ('/' :: (dc ++ c0 :: rest)) = "/".data ++ (dc ++ c0 :: rest) := rfl
    rw [e]
    exact tagP_append _ _
  have h9 : takeWhileP is_num (dc ++ c0 :: rest) = some (dc, c0 :: rest) :=
    takeWhileP_append _ _ (fun c hc => hdcd c hc) hc0
  have h10 : u32OfStr dc = some (foldDigits dc) :=
    parseUIntR_digitRun hdc hdcd hdle
  simp only [lexDate, h1, h2, h3, h4, h5, h6, h7, h8, h9, h10]

theorem lexInfo_spec {info extra : List Char}
    (hq : ∀ c ∈ info, (c == '"') = false)
    (hh : ∀ c, info.head? = some c → isSp c = false) :
    lexInfo ("info: \"".data ++ (info ++ '"' :: extra)) = some (info, extra) := by
  have h1 : wsTag "info: \"".data ("info: \"".data ++ (info ++ '"' :: extra))
      = some (spDrop (info ++ '"' :: extra)) :=
    wsTag_append (by decide) (headNotSp rfl (by decide))
  have h2 : spDrop (info ++ '"' :: extra) = info ++ '"' :: extra :=
    spDrop_append hh (by decide)
  have h3 : takeTillP (fun c => c == '"') (info ++ '"' :: extra) =
      some (info, '"' :: extra) := takeTillP_append '"' extra hq (by decide)
  have h4 : tagP "\"".data ('"' :: extra) = some extra := by
    have e : ('"' :: extra) = "\"".data ++ extra := rfl
    rw [e]
    exact tagP_append _ _
  simp only [lexInfo, h1, h2, h3, h4]

theorem lexPriority_sp {c : Char} {s : List Char} (h : isSp c = true) :
    lexPriority (c :: s) = lexPriority s := by
  simp only [lexPriority, wsTag_cons_sp h]

theorem lexDate_sp {c : Char} {s : List Char} (h : isSp c = true) :
    lexDate (c :: s) = lexDate s := by
  simp only [lexDate, wsTag_cons_sp h]

theorem lexInfo_sp {c : Char} {s : List Char} (h : isSp c = true) :
    lexInfo (c :: s) = lexInfo s := by
  simp only [lexInfo, wsTag_cons_sp h]

/-! ## The round-trip master lemma -/

theorem mk_data (s : String) : String.mk s.data = s := by
  cases s
  rfl

theorem validYMD_bounds {y : Int} {m d : Nat} (h : validYMD y m d = true) :
    1 ≤ m ∧ m ≤ 12 ∧ 1 ≤ d ∧ d ≤ 31 := by
  unfold validYMD at h
  simp only [Bool.and_eq_true, decide_eq_true_eq] at h
  obtain ⟨⟨⟨⟨⟨h1, h2⟩, h3⟩, h4⟩, h5⟩, h6⟩ := h
  have hdm : daysInMonth y m ≤ 31 := by
    unfold daysInMonth
    split
    · split <;> norm_num
    · split <;> norm_num
  refine ⟨h3, h4, h5, ?_⟩
  have hcast : (d : Int) ≤ 31 := le_trans h6 hdm
  exact_mod_cast hcast

/-- Decoding an encoded task: for a `Task` whose title and info contain no
quote character and do not begin with nom whitespace, whose priority is a
`u8`, whose year lies in `0..=9999`, and whose date is valid, `parse_task`
applied to `Task::to_file`'s output followed by any trailing text succeeds,
returns exactly the trailing text as the unconsumed remainder, and rebuilds
the task with all four fields intact. -/
theorem parse_toFile (t : Task) (extra : List Char)
    (htq : ∀ c ∈ t.title.data, (c == '"') = false)
    (hth : ∀ c, t.title.data.head? = some c → isSp c = false)
    (hiq : ∀ c ∈ t.info.data, (c == '"') = false)
    (hih : ∀ c, t.info.data.head? = some c → isSp c = false)
    (hp : t.priority ≤ 255) (hy0 : 0 ≤ t.year) (hy : t.year < 10000)
    (hv : validYMD t.year t.month t.day = true) :
    parseTaskL (toFileL t ++ extra) = .ok (String.mk extra) t := by
  have hshape : toFileL t ++ extra =
      "title: \"".data ++ (t.title.data ++ '"' :: ('\n' :: ("priority: ".data ++
        (natToChars t.priority ++ '\n' :: ("due_date: ".data ++
          (padZero 4 (natToChars t.year.toNat) ++ '/' :: (pad2 t.month ++ '/' ::
            (pad2 t.day ++ '\n' :: ("info: \"".data ++
              (t.info.data ++ '"' :: extra)))))))))) := by
    unfold toFileL
    rw [dateReplace hy0 hy]
    have e1 : "\"\npriority: ".data = '"' :: ('\n' :: "priority: ".data) := rfl
    have e2 : "\ndue_date: ".data = '\n' :: "due_date: ".data := rfl
    have e3 : "\ninfo: \"".data = '\n' :: "info: \"".data := rfl
    rw [e1, e2, e3]
    simp [List.append_assoc]
  have sp1 : ∀ ys : List Char,
      spDrop ("priority: ".data ++ ys) = "priority: ".data ++ ys :=
    fun ys => spDrop_append_ne ys (by decide) (headNotSp rfl (by decide))
  have hpfold : foldDigits (natToChars t.priority) ≤ 255 := by
    rw [foldDigits_natToChars]
    exact hp
  have hycne : padZero 4 (natToChars t.year.toNat) ≠ [] :=
    padZero_ne_nil natToChars_ne_nil
  have hycd : ∀ c ∈ padZero 4 (natToChars t.year.toNat), c.isDigit = true :=
    padZero_digits natToChars_digits
  have hyle : (foldDigits (padZero 4 (natToChars t.year.toNat)) : Int)
      ≤ 2147483647 := by
    rw [foldDigits_padZero, foldDigits_natToChars]
    have hlt : t.year.toNat < 10000 := by omega
    have : ((t.year.toNat : Int)) < 10000 := by exact_mod_cast hlt
    omega
  have hmle : foldDigits (pad2 t.month) ≤ 4294967295 := by
    rw [foldDigits_pad2]
    obtain ⟨_, hm12, _, _⟩ := validYMD_bounds hv
    omega
  have hdle : foldDigits (pad2 t.day) ≤ 4294967295 := by
    rw [foldDigits_pad2]
    obtain ⟨_, _, _, hd31⟩ := validYMD_bounds hv
    omega
  rw [hshape]
  simp only [parseTaskL, lexTask,
    lexTitle_spec htq hth,
    spDrop_cons_sp (show isSp '\n' = true by decide),
    sp1,
    lexPriority_spec natToChars_ne_nil natToChars_digits hpfold
      (show is_num '\n' = false by decide),
    lexDate_sp (show isSp '\n' = true by decide),
    lexDate_spec hycne hycd hyle pad2_ne_nil pad2_digits hmle
      pad2_ne_nil pad2_digits hdle (show is_num '\n' = false by decide),
    lexInfo_sp (show isSp '\n' = true by decide),
    lexInfo_spec hiq hih,
    foldDigits_padZero, foldDigits_natToChars, foldDigits_pad2,
    Int.toNat_of_nonneg hy0, hv, if_true]

/-! ## Inversion: any successfully decoded year is non-negative -/

theorem takeWhileP_digits {p : Char → Bool} {s a b : List Char}
    (h : takeWhileP p s = some (a, b)) : ∀ c ∈ a, p c = true := by
  unfold takeWhileP at h
  split at h
  · simp only [Option.some.injEq, Prod.mk.injEq] at h
    obtain ⟨h1, h2⟩ := h
    intro c hc
    rw [← h1] at hc
    exact List.mem_takeWhile_imp hc
  · cases h

theorem lexDate_year_nonneg {s : List Char} {y : Int} {m d : Nat}
    {r : List Char} (h : lexDate s = some (y, m, d, r)) : 0 ≤ y := by
  unfold lexDate at h
  cases h1 : wsTag "due_date: ".data s with
  | none => rw [h1] at h; simp at h
  | some s1 =>
    rw [h1] at h
    dsimp at h
    cases h2 : takeWhileP is_num s1 with
    | none => rw [h2] at h; simp at h
    | some pr =>
      obtain ⟨yc, s2⟩ := pr
      rw [h2] at h
      dsimp at h
      cases h3 : yearOfStr yc with
      | none => rw [h3] at h; simp at h
      | some yv =>
        rw [h3] at h
        dsimp at h
        have hdig : ∀ c ∈ yc, c.isDigit = true := by
          intro c hc
          have := takeWhileP_digits h2 c hc
          simpa [is_num] using this
        have hnn : 0 ≤ yv := parseIntR_nonneg hdig (by simpa [yearOfStr] using h3)
        cases h4 : tagP "/".data s2 with
        | none => rw [h4] at h; simp at h
        | some s3 =>
          rw [h4] at h
          dsimp at h
          cases h5 : takeWhileP is_num s3 with
          | none => rw [h5] at h; simp at h
          | some pr2 =>
            obtain ⟨mc, s4⟩ := pr2
            rw [h5] at h
            dsimp at h
            cases h6 : u32OfStr mc with
            | none => rw [h6] at h; simp at h
            | some mv =>
              rw [h6] at h
              dsimp at h
              cases h7 : tagP "/".data s4 with
              | none => rw [h7] at h; simp at h
              | some s5 =>
                rw [h7] at h
                dsimp at h
                cases h8 : takeWhileP is_num s5 with
                | none => rw [h8] at h; simp at h
                | some pr3 =>
                  obtain ⟨dc, s6⟩ := pr3
                  rw [h8] at h
                  dsimp at h
                  cases h9 : u32OfStr dc with
                  | none => rw [h9] at h; simp at h
                  | some dv =>
                    rw [h9] at h
                    dsimp at h
                    simp only [Option.some.injEq, Prod.mk.injEq] at h
                    obtain ⟨hy, -⟩ := h
                    rw [← hy]
                    exact hnn

theorem lexTask_date {s title : List Char} {p : Nat} {y : Int} {m d : Nat}
    {info rest : List Char}
    (h : lexTask s = some (title, p, y, m, d, info, rest)) :
    ∃ s2 r2, lexDate s2 = some (y, m, d, r2) := by
  unfold lexTask at h
  cases h1 : lexTitle s with
  | none => rw [h1] at h; simp at h
  | some pr1 =>
    obtain ⟨ti, s1⟩ := pr1
    rw [h1] at h
    dsimp at h
    cases h2 : lexPriority s1 with
    | none => rw [h2] at h; simp at h
    | some pr2 =>
      obtain ⟨pp, s2⟩ := pr2
      rw [h2] at h
      dsimp at h
      cases h3 : lexDate s2 with
      | none => rw [h3] at h; simp at h
      | some pr3 =>
        obtain ⟨yy, mm, dd, s3⟩ := pr3
        rw [h3] at h
        dsimp at h
        cases h4 : lexInfo s3 with
        | none => rw [h4] at h; simp at h
        | some pr4 =>
          obtain ⟨ii, s4⟩ := pr4
          rw [h4] at h
          dsimp at h
          simp only [Option.some.injEq, Prod.mk.injEq] at h
          obtain ⟨-, -, hy, hm, hd, -, -⟩ := h
          refine ⟨s2, s3, ?_⟩
          rw [h3, hy, hm, hd]

theorem parseTaskL_year_nonneg {s : List Char} {r : String} {t : Task}
    (h : parseTaskL s = .ok r t) : 0 ≤ t.year := by
  unfold parseTaskL at h
  cases hl : lexTask s with
  | none => rw [hl] at h; simp at h
  | some tup =>
    obtain ⟨title, p, y, m, d, info, rest⟩ := tup
    rw [hl] at h
    dsimp at h
    split at h
    · simp only [PR.ok.injEq] at h
      obtain ⟨-, ht⟩ := h
      obtain ⟨s2, r2, hds⟩ := lexTask_date hl
      have := lexDate_year_nonneg hds
      rw [← ht]
      simpa using this
    · cases h

/-! ## Aggregate-failure lemma for the store loop -/

theorem processFiles_err_of_mem {c : String} (herr : parseTaskL c.data = .err) :
    ∀ cs : List String, c ∈ cs → ∀ l, processFiles cs ≠ .ok l := by
  intro cs
  induction cs with
  | nil =>
    intro h
    simp at h
  | cons a rest ih =>
    intro hmem l hcon
    unfold processFiles at hcon
    rcases List.mem_cons.mp hmem with rfl | hmem'
    · rw [herr] at hcon
      cases hcon
    · cases hp : parseTaskL a.data with
      | ok r t =>
        rw [hp] at hcon
        dsimp at hcon
        cases hrec : processFiles rest with
        | ok ts => exact ih hmem' ts hrec
        | err =>
          rw [hrec] at hcon
          cases hcon
        | panic =>
          rw [hrec] at hcon
          cases hcon
      | err =>
        rw [hp] at hcon
        cases hcon
      | panic =>
        rw [hp] at hcon
        cases hcon

/-! ## Claim theorems -/

/-- Claim C1 (counterexample): the round-trip law fails as stated.  The task
titled `" a"` (leading space, no quote character anywhere) encodes and then
decodes to a task titled `"a"`: the nom `ws!` wrapper around the opening
`title: "` tag eats the whitespace that follows the quote, so the leading
space of the title is lost and the decoded task differs from the original. -/
theorem claim_C1_counterexample :
    (∀ c ∈ (" a" : String).data, (c == '"') = false) ∧
    (∀ c ∈ ("b" : String).data, (c == '"') = false) ∧
    parse_task (toFile ⟨" a", 1, 2024, 1, 5, "b"⟩) =
      .ok "" ⟨"a", 1, 2024, 1, 5, "b"⟩ ∧
    (Task.mk "a" 1 2024 1 5 "b") ≠ (Task.mk " a" 1 2024 1 5 "b") := by
  refine ⟨by decide, by decide, ?_, by decide⟩
  decide

/-- Claim C1 (amended): for every Task whose title and info contain no quote
character and do not begin with a whitespace character (space, tab, CR, LF),
and whose due-date year lies in `0..=9999`, decoding the encoded record
succeeds with no input left over and yields a Task equal to the original in
all four fields.  (Priority fitting in `u8` and the date being a valid
calendar date hold by construction on the Rust side and appear here as
hypotheses.) -/
theorem claim_C1 (t : Task)
    (htq : ∀ c ∈ t.title.data, (c == '"') = false)
    (hth : ∀ c, t.title.data.head? = some c → isSp c = false)
    (hiq : ∀ c ∈ t.info.data, (c == '"') = false)
    (hih : ∀ c, t.info.data.head? = some c → isSp c = false)
    (hp : t.priority ≤ 255) (hy0 : 0 ≤ t.year) (hy : t.year < 10000)
    (hv : validYMD t.year t.month t.day = true) :
    parse_task (toFile t) = .ok "" t := by
  show parseTaskL (String.mk (toFileL t)).data = _
  have hdata : (String.mk (toFileL t)).data = toFileL t := rfl
  rw [hdata]
  have h := parse_toFile t [] htq hth hiq hih hp hy0 hy hv
  simpa using h

/-- Claim C1 witness: a concrete task round-trips. -/
theorem claim_C1_witness :
    parse_task (toFile ⟨"a", 1, 2024, 1, 5, "b"⟩) =
      .ok "" ⟨"a", 1, 2024, 1, 5, "b"⟩ :=
  claim_C1 ⟨"a", 1, 2024, 1, 5, "b"⟩ (by decide) (headNotSp rfl (by decide))
    (by decide) (headNotSp rfl (by decide)) (by decide) (by decide)
    (by decide) (by decide)

/-- Claim C2: a decode failure on any enumerated file prevents `get_tasks`
from returning any task list at all, and the concrete store holding two valid
records and one malformed record yields the aggregate failure, not the two
good tasks. -/
theorem claim_C2 :
    (∀ (store : List FSEntry) (c : String), c ∈ walkFiles store →
      parse_task c = .err → ∀ l, get_tasks store ≠ .ok l) ∧
    get_tasks [.file "a.cstf" (toFile ⟨"a", 1, 2024, 1, 5, "b"⟩),
      .file "b.cstf" "garbage",
      .file "c.cstf" (toFile ⟨"c", 2, 2024, 2, 6, "d"⟩)] = .err := by
  constructor
  · intro store c hmem herr l
    exact processFiles_err_of_mem herr (walkFiles store) hmem l
  · have h : walkFiles [.file "a.cstf" (toFile ⟨"a", 1, 2024, 1, 5, "b"⟩),
        .file "b.cstf" "garbage",
        .file "c.cstf" (toFile ⟨"c", 2, 2024, 2, 6, "d"⟩)]
        = [toFile ⟨"a", 1, 2024, 1, 5, "b"⟩, "garbage",
           toFile ⟨"c", 2, 2024, 2, 6, "d"⟩] := by
      simp +decide [walkFiles, cstfName]
    show processFiles (walkFiles _) = _
    rw [h]
    decide

/-- Claim C2 witness: the general aggregate-failure statement applied to a
one-file store whose record is malformed. -/
theorem claim_C2_witness : get_tasks [.file "x.cstf" "garbage"] ≠ .ok [] :=
  claim_C2.1 [.file "x.cstf" "garbage"] "garbage"
    (by simp +decide [walkFiles, cstfName]) (by decide) []

/-- Claim C3 (counterexample): a `.cstf` file inside a subdirectory of the
store is NOT included in the listing, contrary to the claim.  The
`filter_entry` predicate also prunes directories whose names lack the `cstf`
suffix, so `sub/a.cstf` is never visited even though its content is a
perfectly decodable record. -/
theorem claim_C3_counterexample :
    walkFiles [.dir "sub" [.file "a.cstf" (toFile ⟨"a", 1, 2024, 1, 5, "b"⟩)]]
      = [] ∧
    get_tasks [.dir "sub" [.file "a.cstf" (toFile ⟨"a", 1, 2024, 1, 5, "b"⟩)]]
      = .ok [] ∧
    parse_task (toFile ⟨"a", 1, 2024, 1, 5, "b"⟩) =
      .ok "" ⟨"a", 1, 2024, 1, 5, "b"⟩ := by
  refine ⟨?_, ?_, ?_⟩
  · simp +decide [walkFiles, cstfName]
  · show processFiles (walkFiles _) = _
    rw [show walkFiles
        [.dir "sub" [.file "a.cstf" (toFile ⟨"a", 1, 2024, 1, 5, "b"⟩)]] = []
      from by simp +decide [walkFiles, cstfName]]
    rfl
  · decide

/-- Claim C3 (amended): the walk considers exactly the files whose names end
in the four characters `cstf` (a dot is not required) and all of whose
ancestor directories below the store root also have names ending in `cstf`:
a `cstf`-suffixed file at the root is listed, any entry whose name lacks the
suffix is skipped, a file inside a directory whose name lacks the suffix is
pruned together with the directory, and a file inside a `cstf`-suffixed
directory is listed. -/
theorem claim_C3 :
    (∀ n c : String, cstfName n = true → walkFiles [.file n c] = [c]) ∧
    (∀ n c : String, cstfName n = false → walkFiles [.file n c] = []) ∧
    (∀ dn n c : String, cstfName dn = false →
      walkFiles [.dir dn [.file n c]] = []) ∧
    (∀ dn n c : String, cstfName dn = true → cstfName n = true →
      walkFiles [.dir dn [.file n c]] = [c]) ∧
    cstfName "a.cstf" = true ∧ cstfName "acstf" = true ∧
    cstfName "sub" = false := by
  refine ⟨?_, ?_, ?_, ?_, by decide, by decide, by decide⟩
  · intro n c h
    simp [walkFiles, h]
  · intro n c h
    simp [walkFiles, h]
  · intro dn n c h
    simp [walkFiles, h]
  · intro dn n c h1 h2
    simp [walkFiles, h1, h2]

/-- Claim C3 witness: the amended enumeration rule at concrete names. -/
theorem claim_C3_witness :
    walkFiles [.file "a.cstf" "x"] = ["x"] ∧
    walkFiles [.dir "sub" [.file "a.cstf" "x"]] = [] ∧
    walkFiles [.dir "subcstf" [.file "a.cstf" "x"]] = ["x"] :=
  ⟨claim_C3.1 "a.cstf" "x" (by decide),
   claim_C3.2.2.1 "sub" "a.cstf" "x" (by decide),
   claim_C3.2.2.2.1 "subcstf" "a.cstf" "x" (by decide) (by decide)⟩

/-- Claim C4: a record that is lexically well-formed but carries the invalid
calendar date `2024/13/40` makes `parse_task` panic (the `Utc.ymd`
construction unwraps a `None`), and the panic propagates out of `get_tasks`;
the decode does NOT produce the recoverable error value the claim and spec
describe. -/
theorem claim_C4 :
    parse_task "title: \"a\"\npriority: 1\ndue_date: 2024/13/40\ninfo: \"b\""
      = .panic ∧
    get_tasks [.file "a.cstf"
      "title: \"a\"\npriority: 1\ndue_date: 2024/13/40\ninfo: \"b\""]
      = .panic := by
  constructor
  · decide
  · show processFiles (walkFiles _) = _
    rw [show walkFiles [.file "a.cstf"
        "title: \"a\"\npriority: 1\ndue_date: 2024/13/40\ninfo: \"b\""]
        = ["title: \"a\"\npriority: 1\ndue_date: 2024/13/40\ninfo: \"b\""]
      from by simp +decide [walkFiles, cstfName]]
    decide

/-- Claim C5 (counterexample): a file whose content matches the four-field
grammar followed by additional non-whitespace content after the closing quote
of the info field decodes successfully — nom returns the task together with
the unconsumed remainder and `get_tasks` ignores the remainder — rather than
failing as the claim states. -/
theorem claim_C5_counterexample :
    parse_task (toFile ⟨"a", 1, 2024, 1, 5, "b"⟩ ++ "garbage") =
      .ok "garbage" ⟨"a", 1, 2024, 1, 5, "b"⟩ := by
  decide

/-- Claim C5 (amended): decode requires the grammar only as a prefix of the
file: any trailing text after the closing quote of the info field is left
unconsumed and ignored, and decode succeeds with the task taken from the
grammar-matching prefix. -/
theorem claim_C5 (extra : String) :
    parse_task (toFile ⟨"a", 1, 2024, 1, 5, "b"⟩ ++ extra) =
      .ok extra ⟨"a", 1, 2024, 1, 5, "b"⟩ := by
  show parseTaskL (toFile ⟨"a", 1, 2024, 1, 5, "b"⟩ ++ extra).data = _
  have hd : (toFile ⟨"a", 1, 2024, 1, 5, "b"⟩ ++ extra).data
      = toFileL ⟨"a", 1, 2024, 1, 5, "b"⟩ ++ extra.data := by
    simp [toFile, String.data_append]
  rw [hd]
  rw [parse_toFile ⟨"a", 1, 2024, 1, 5, "b"⟩ extra.data (by decide)
    (headNotSp rfl (by decide)) (by decide) (headNotSp rfl (by decide))
    (by decide) (by decide) (by decide) (by decide)]

/-- Claim C6 (counterexample): the encoded due-date line is zero-padded.  A
task due 2024-01-05 encodes the line `due_date: 2024/01/05` — chrono's
`Display` pads month and day to two digits — and NOT the unpadded
`due_date: 2024/1/5` the claim asserts. -/
theorem claim_C6_counterexample :
    toFile ⟨"a", 1, 2024, 1, 5, "b"⟩ =
      "title: \"a\"\npriority: 1\ndue_date: 2024/01/05\ninfo: \"b\"" ∧
    toFile ⟨"a", 1, 2024, 1, 5, "b"⟩ ≠
      "title: \"a\"\npriority: 1\ndue_date: 2024/1/5\ninfo: \"b\"" := by
  constructor <;> decide

/-- Claim C6 (amended): for every Task with year in `0..=9999`, the encoder
renders the due date as year, month and day joined by `/`, with the year
zero-padded to four digits and month and day zero-padded to two digits, as
produced by chrono's date display with the `UTC` suffix removed and `-`
replaced by `/`. -/
theorem claim_C6 (t : Task) (hy0 : 0 ≤ t.year) (hy : t.year < 10000) :
    toFile t = String.mk ("title: \"".data ++ t.title.data
      ++ "\"\npriority: ".data ++ natToChars t.priority
      ++ "\ndue_date: ".data
      ++ (padZero 4 (natToChars t.year.toNat)
          ++ '/' :: (pad2 t.month ++ '/' :: pad2 t.day))
      ++ "\ninfo: \"".data ++ t.info.data ++ ['"']) := by
  unfold toFile toFileL
  rw [dateReplace hy0 hy]

/-- Claim C6 witness: the amended rendering at a concrete task. -/
theorem claim_C6_witness :
    toFile ⟨"x", 2, 2024, 12, 31, "y"⟩ =
      "title: \"x\"\npriority: 2\ndue_date: 2024/12/31\ninfo: \"y\"" := by
  rw [claim_C6 ⟨"x", 2, 2024, 12, 31, "y"⟩ (by decide) (by decide)]
  decide

/-- Claim C7 (counterexample): decoding a record whose year is preceded by a
minus sign fails outright.  The year capture is `take_while!(is_num)`, which
never includes a sign character, so `i32::from_str` receives the empty string
and errors. -/
theorem claim_C7_counterexample :
    parse_task "title: \"a\"\npriority: 1\ndue_date: -2024/1/5\ninfo: \"b\""
      = .err := by
  decide

/-- Claim C7 (amended): the year field is parsed by applying the signed
32-bit parser to a maximal run of ASCII digits; the captured run can never
contain a sign character, so every successfully decoded task has a
non-negative year, and the exemplar record with `due_date: -2000/1/5` fails
to decode. -/
theorem claim_C7 :
    (∀ (s r : String) (t : Task), parse_task s = .ok r t → 0 ≤ t.year) ∧
    parse_task "title: \"a\"\npriority: 1\ndue_date: -2000/1/5\ninfo: \"b\""
      = .err := by
  constructor
  · intro s r t h
    exact parseTaskL_year_nonneg h
  · decide

/-- Claim C7 witness: the non-negativity statement applied to a record that
does decode. -/
theorem claim_C7_witness : (0 : Int) ≤ (Task.mk "a" 1 2024 1 5 "b").year :=
  claim_C7.1 "title: \"a\"\npriority: 1\ndue_date: 2024/1/5\ninfo: \"b\"" ""
    ⟨"a", 1, 2024, 1, 5, "b"⟩ (by decide)

/-- Claim C8: tasks with priority 0 and with priority 255 encode and decode
successfully, while a record whose priority digit run denotes 256 fails the
whole decode (the `u8` conversion overflows, `map_res!` turns that into a
parse error). -/
theorem claim_C8 :
    parse_task (toFile ⟨"a", 0, 2024, 1, 5, "b"⟩) =
      .ok "" ⟨"a", 0, 2024, 1, 5, "b"⟩ ∧
    parse_task (toFile ⟨"a", 255, 2024, 1, 5, "b"⟩) =
      .ok "" ⟨"a", 255, 2024, 1, 5, "b"⟩ ∧
    parse_task "title: \"a\"\npriority: 256\ndue_date: 2024/1/5\ninfo: \"b\""
      = .err := by
  refine ⟨by decide, by decide, by decide⟩

/-- Claim C9 (counterexample): a task due in exactly 8 days is rendered in
the third colour band (green), not the second (yellow): 8 fails the `<= 7`
comparison and satisfies `<= 14`. -/
theorem claim_C9_counterexample :
    dueDateColor 8 = .green ∧ dueDateColor 7 = .yellow ∧
    TermColor.green ≠ TermColor.yellow := by
  decide

/-- Claim C9 (amended): the due-date colour is selected from the signed
number of days from today, banded at `<= 1` (red, covering today and all
past-due dates), `<= 7` (yellow), `<= 14` (green) and `> 14` (cyan); a task
due today or overdue gets the most urgent band, a task due in exactly 8 days
gets the THIRD band, and a task due in exactly 15 days gets the least urgent
band. -/
theorem claim_C9 :
    (∀ n : Int, n ≤ 1 → dueDateColor n = .red) ∧
    (∀ n : Int, 1 < n → n ≤ 7 → dueDateColor n = .yellow) ∧
    (∀ n : Int, 7 < n → n ≤ 14 → dueDateColor n = .green) ∧
    (∀ n : Int, 14 < n → dueDateColor n = .cyan) ∧
    dueDateColor 0 = .red ∧ dueDateColor (-30) = .red ∧
    dueDateColor 8 = .green ∧ dueDateColor 15 = .cyan := by
  refine ⟨?_, ?_, ?_, ?_, by decide, by decide, by decide, by decide⟩
  · intro n h
    simp [dueDateColor, h]
  · intro n h1 h2
    unfold dueDateColor
    rw [if_neg (by omega), if_pos h2]
  · intro n h1 h2
    unfold dueDateColor
    rw [if_neg (by omega), if_neg (by omega), if_pos h2]
  · intro n h
    unfold dueDateColor
    rw [if_neg (by omega), if_neg (by omega), if_neg (by omega)]

/-- Claim C9 witness: the banding at the boundary offsets. -/
theorem claim_C9_witness :
    dueDateColor 1 = .red ∧ dueDateColor 7 = .yellow ∧
    dueDateColor 14 = .green ∧ dueDateColor 100 = .cyan :=
  ⟨claim_C9.1 1 (by decide), claim_C9.2.1 7 (by decide) (by decide),
   claim_C9.2.2.1 14 (by decide) (by decide), claim_C9.2.2.2.1 100 (by decide)⟩

/-- Claim C10: the due-date line handling of `new_task` panics rather than
returning an error on two classes of malformed input: a line with fewer than
three `-`-separated components whose first component parses as an integer
(the `date_string[1]` index is out of bounds), and a line whose three
components are integers that do not form a valid calendar date (`Utc.ymd`
panics).  Only inputs whose components fail integer parsing take the error
branch, as does a well-formed date line succeed. -/
theorem claim_C10 :
    newTaskDate "2024" = .panic ∧
    newTaskDate "2024-13-40" = .panic ∧
    newTaskDate "20x4-1-1" = .err ∧
    newTaskDate "2024-1-5" = .ok 2024 1 5 := by
  refine ⟨by decide, by decide, by decide, by decide⟩

end Constellations
